import Mathlib

/-!
Verification development for the `simple_search` repository.

Rust strings are modelled as lists of Unicode scalar values (`Char`).
Rust's `str::len` returns the UTF-8 byte length, while `str::chars().nth(k)`
returns the `k`-th scalar value as an `Option<char>`; both are modelled
faithfully below, since `levenshtein_matrix` mixes the two.
`f64` values produced by integer casts and divisions are modelled as exact
rationals (`ℚ`); the logarithmically weighted scores are modelled as reals.
-/

namespace SimpleSearch

/-- A Rust string, as its sequence of Unicode scalar values. -/
abbrev Str := List Char

/-- Number of bytes of the UTF-8 encoding of one scalar value. -/
def utf8Len (c : Char) : Nat :=
  if c.toNat < 0x80 then 1
  else if c.toNat < 0x800 then 2
  else if c.toNat < 0x10000 then 3
  else 4

/-- Rust `str::len`: the UTF-8 byte length of the string. -/
def byteLen (s : Str) : Nat := (s.map utf8Len).sum

/-- Rust `s.chars().nth(n)`: the `n`-th scalar value, if any. -/
def charsNth (s : Str) (n : Nat) : Option Char := s.get? n

/-- The `cost` computed inside the matrix loop of `levenshtein_matrix`
(src/levenshtein/base.rs): `0` if `a.chars().nth(i-1) == b.chars().nth(j-1)`
else `1`.  Note that both sides are `Option` values, so two out-of-range
positions compare equal. -/
def levCost (a b : Str) (i j : Nat) : Nat :=
  if charsNth a (i - 1) = charsNth b (j - 1) then 0 else 1

/-- One row of the Levenshtein table: given the previous row `prev` (as a
function of the column index) and the row index `i`, column `0` holds `i` and
column `j+1` holds `min (prev (j+1) + 1) (min (cur j + 1) (prev j + cost))`,
exactly the update performed cell by cell, left to right, by the inner loop of
`levenshtein_matrix`. -/
def levRowGo (prev : Nat → Nat) (a b : Str) (i : Nat) : Nat → Nat
  | 0 => i
  | j + 1 =>
    min (prev (j + 1) + 1)
      (min (levRowGo prev a b i j + 1) (prev j + levCost a b i (j + 1)))

/-- Cell `(i, j)` of the table built by `levenshtein_matrix`
(src/levenshtein/base.rs, lines 56-88): row `0` is the ramp `j`, and row `i+1`
is obtained from row `i` by the in-place loop modelled by `levRowGo`. -/
def levCell (a b : Str) : Nat → Nat → Nat
  | 0 => fun j => j
  | i + 1 => levRowGo (levCell a b i) a b (i + 1)

/-- Rust `levenshtein_matrix(a, b)`: a `(a.len()+1) × (b.len()+1)` table of
cells, where `len` is the UTF-8 byte length as in the source. -/
def levenshtein_matrix (a b : Str) : List (List Nat) :=
  (List.range (byteLen a + 1)).map fun i =>
    (List.range (byteLen b + 1)).map fun j => levCell a b i j

/-- Read `matrix[i][j]` from a `Vec<Vec<usize>>`. -/
def mget (m : List (List Nat)) (i j : Nat) : Nat := (m.getD i []).getD j 0

/-- Rust `levenshtein_distance(a, b)`: the cell `matrix[a.len()][b.len()]` of
`levenshtein_matrix(a, b)`. -/
def levenshtein_distance (a b : Str) : Nat :=
  mget (levenshtein_matrix a b) (byteLen a) (byteLen b)

/-- Rust `levenshtein_similarity(a, b)`: `(max_distance - distance) as f64 /
max_distance as f64` with `max_distance = a.len().max(b.len())`, and `0.0`
when `max_distance == 0`.  The subtraction is on `usize`, hence truncated,
before the cast. -/
def levenshtein_similarity (a b : Str) : ℚ :=
  let distance := levenshtein_distance a b
  let max_distance := max (byteLen a) (byteLen b)
  if max_distance = 0 then 0
  else ((max_distance - distance : Nat) : ℚ) / (max_distance : ℚ)

example : levenshtein_distance "kitten".toList "sitting".toList = 3 := by decide
example : levenshtein_distance "abc".toList "abc".toList = 0 := by decide
example : levenshtein_similarity ['a', 'b'] ['a', 'b'] = 1 := by
  have hd : levenshtein_distance ['a', 'b'] ['a', 'b'] = 0 := by decide
  have hb : byteLen ['a', 'b'] = 2 := by decide
  norm_num [levenshtein_similarity, hd, hb]

example : levenshtein_similarity [] [] = 0 := by
  norm_num [levenshtein_similarity, byteLen]

/-- Write `matrix[i][j] = v` in a `Vec<Vec<usize>>` (in-bounds writes only are
exercised by the source). -/
def mset (m : List (List Nat)) (i j v : Nat) : List (List Nat) :=
  m.set i ((m.getD i []).set j v)

/-- The `IncrementalLevenshtein` struct (src/levenshtein/incremental.rs). -/
structure IncrementalLevenshtein where
  query : Str
  data : Str
  matrix : List (List Nat)

namespace IncrementalLevenshtein

/-- Rust `IncrementalLevenshtein::new(query, data)`. -/
def new (query data : Str) : IncrementalLevenshtein :=
  ⟨query, data, levenshtein_matrix query data⟩

/-- Length of the identical leading run of `self.query.chars().zip(new_query.chars())`,
as computed by `IncrementalLevenshtein::query_similarity`. -/
def query_similarity (s : IncrementalLevenshtein) (new_query : Str) : Nat :=
  go s.query new_query
where
  go : Str → Str → Nat
    | c :: cs, d :: ds => if c = d then go cs ds + 1 else 0
    | _, _ => 0

/-- Rust `IncrementalLevenshtein::update(new_query)` (incremental.rs lines
63-99): resize the row list (pushing zero rows or popping rows at the end),
store the new query, set only `matrix[len_a][0] = len_a`, then recompute the
cells of rows `query_similarity+1 ..= len_a` for columns `1 ..= len_b`,
in row-major order, each from the current contents of the matrix. -/
def update (s : IncrementalLevenshtein) (new_query : Str) : IncrementalLevenshtein :=
  let qs := s.query_similarity new_query
  let m0 :=
    if byteLen new_query > byteLen s.query then
      s.matrix ++
        List.replicate (byteLen new_query - byteLen s.query)
          (List.replicate (byteLen s.data + 1) 0)
    else
      s.matrix.take (s.matrix.length - (byteLen s.query - byteLen new_query))
  let len_a := byteLen new_query
  let len_b := byteLen s.data
  let m1 := mset m0 len_a 0 len_a
  let m2 :=
    (List.range' (qs + 1) (len_a - qs)).foldl
      (fun m i =>
        (List.range' 1 len_b).foldl
          (fun m j =>
            let cost := if charsNth new_query (i - 1) = charsNth s.data (j - 1) then 0 else 1
            mset m i j
              (min (mget m (i - 1) j + 1)
                (min (mget m i (j - 1) + 1) (mget m (i - 1) (j - 1) + cost))))
          m)
      m1
  ⟨new_query, s.data, m2⟩

/-- Rust `IncrementalLevenshtein::similarity(new_query)`: update, then score
from the stored matrix.  Since the method mutates `self`, the model returns
the score together with the updated struct. -/
def similarity (s : IncrementalLevenshtein) (new_query : Str) :
    ℚ × IncrementalLevenshtein :=
  let t := s.update new_query
  let distance := mget t.matrix (byteLen t.query) (byteLen t.data)
  let max_distance := max (byteLen t.query) (byteLen t.data)
  (if max_distance = 0 then 0
   else ((max_distance - distance : Nat) : ℚ) / (max_distance : ℚ), t)

end IncrementalLevenshtein

/-- C1: the incremental engine is NOT equivalent to the from-scratch
computation.  With data `"a"` and initial query `""`, the call
`similarity("bb")` returns `1/2`, while the from-scratch
`levenshtein_similarity("bb", "a")` is `0`: when the query grows by more than
one character, `update` pushes fresh all-zero rows but initialises column `0`
of the last row only, so the intermediate new rows keep `matrix[i][0] = 0` and
the recomputation reads the wrong boundary values.  This contradicts the
documented intent of the struct (an incremental computation of the same
Levenshtein similarity) and the repository's own equivalence test. -/
theorem incremental_similarity_diverges_from_scratch :
    ((IncrementalLevenshtein.new [] ['a']).similarity ['b', 'b']).1 = 1 / 2 ∧
      levenshtein_similarity ['b', 'b'] ['a'] = 0 := by
  constructor
  · have key : ((IncrementalLevenshtein.new [] ['a']).similarity ['b', 'b']).1 =
        ((2 - 1 : Nat) : ℚ) / ((2 : Nat) : ℚ) := by rfl
    rw [key]; norm_num
  · have hd : levenshtein_distance ['b', 'b'] ['a'] = 2 := by decide
    have ha : byteLen ['b', 'b'] = 2 := by decide
    have hb : byteLen ['a'] = 1 := by decide
    norm_num [levenshtein_similarity, hd, ha, hb]

/-- C3: the matrix is NOT `(scalar-count + 1) × (scalar-count + 1)`-sized and
multi-byte characters do NOT count as one edit unit.  For `a = "é"` (one
Unicode scalar value, two UTF-8 bytes) and `b = ""`, the source sizes the
matrix by `str::len` (bytes), giving `3` rows instead of `2`, and
`levenshtein_distance` returns `2` instead of the single-scalar edit count
`1`.  The code mixes byte lengths with `chars()`-based comparison, which
contradicts its own claim of computing the Levenshtein distance. -/
theorem levenshtein_matrix_bytes_code_bug :
    levenshtein_distance ['é'] [] = 2 ∧
      (['é'] : Str).length = 1 ∧
      (levenshtein_matrix ['é'] []).length = 3 := by
  refine ⟨by decide, by decide, by decide⟩

theorem levCell_zero_left (a b : Str) (j : Nat) : levCell a b 0 j = j := rfl

theorem levCell_left_zero (a b : Str) (i : Nat) : levCell a b i 0 = i := by
  cases i <;> rfl

theorem levCell_succ_succ (a b : Str) (i j : Nat) :
    levCell a b (i + 1) (j + 1) =
      min (levCell a b i (j + 1) + 1)
        (min (levCell a b (i + 1) j + 1)
          (levCell a b i j + levCost a b (i + 1) (j + 1))) := rfl

theorem levCost_symm (a b : Str) (i j : Nat) : levCost a b i j = levCost b a j i := by
  unfold levCost
  simp only [eq_comm]

theorem levCell_symm (a b : Str) : ∀ i j, levCell a b i j = levCell b a j i := by
  intro i
  induction i with
  | zero => intro j; rw [levCell_zero_left, levCell_left_zero]
  | succ i ih =>
    intro j
    induction j with
    | zero => rw [levCell_left_zero, levCell_zero_left]
    | succ j ihj =>
      rw [levCell_succ_succ, levCell_succ_succ, ih (j + 1), ihj, ih j, levCost_symm]
      exact min_left_comm _ _ _

theorem levCell_self_diag (a : Str) : ∀ i, levCell a a i i = 0 := by
  intro i
  induction i with
  | zero => rfl
  | succ i ih =>
    rw [levCell_succ_succ]
    have hc : levCost a a (i + 1) (i + 1) = 0 := by simp [levCost]
    rw [hc, ih]
    omega

theorem levCell_le_max (a b : Str) : ∀ i j, levCell a b i j ≤ max i j := by
  intro i
  induction i with
  | zero => intro j; rw [levCell_zero_left]; omega
  | succ i ih =>
    intro j
    cases j with
    | zero => rw [levCell_left_zero]; omega
    | succ j =>
      rw [levCell_succ_succ]
      have hc : levCost a b (i + 1) (j + 1) ≤ 1 := by unfold levCost; split <;> omega
      have hz := ih j
      omega

theorem mget_levenshtein_matrix (a b : Str) (i j : Nat)
    (hi : i ≤ byteLen a) (hj : j ≤ byteLen b) :
    mget (levenshtein_matrix a b) i j = levCell a b i j := by
  unfold mget levenshtein_matrix
  rw [List.getD_eq_getElem?_getD, List.getD_eq_getElem?_getD,
    List.getElem?_map, List.getElem?_range (by omega : i < byteLen a + 1)]
  simp only [Option.map_some', Option.getD_some]
  rw [List.getElem?_map, List.getElem?_range (by omega : j < byteLen b + 1)]
  simp

theorem levenshtein_distance_eq_levCell (a b : Str) :
    levenshtein_distance a b = levCell a b (byteLen a) (byteLen b) :=
  mget_levenshtein_matrix a b _ _ le_rfl le_rfl

/-- C7: `levenshtein_distance` is symmetric and vanishes on the diagonal:
for all strings `a` and `b`, `levenshtein_distance(a, b) =
levenshtein_distance(b, a)`, and `levenshtein_distance(a, a) = 0`. -/
theorem levenshtein_distance_symm_and_diag_zero :
    (∀ a b : Str, levenshtein_distance a b = levenshtein_distance b a) ∧
      (∀ a : Str, levenshtein_distance a a = 0) := by
  constructor
  · intro a b
    rw [levenshtein_distance_eq_levCell, levenshtein_distance_eq_levCell,
      levCell_symm]
  · intro a
    rw [levenshtein_distance_eq_levCell]
    exact levCell_self_diag a _

/-- C9: the final matrix cell is at most `max(a.len(), b.len())`, so the
`usize` subtraction inside `levenshtein_similarity` never underflows: the
truncated difference plus the distance recovers the maximum exactly, and the
function totalises to a value for every input. -/
theorem levenshtein_distance_le_max :
    ∀ a b : Str,
      levenshtein_distance a b ≤ max (byteLen a) (byteLen b) ∧
        max (byteLen a) (byteLen b) - levenshtein_distance a b +
            levenshtein_distance a b =
          max (byteLen a) (byteLen b) := by
  intro a b
  have h : levenshtein_distance a b ≤ max (byteLen a) (byteLen b) := by
    rw [levenshtein_distance_eq_levCell]
    exact levCell_le_max a b _ _
  exact ⟨h, by omega⟩

theorem utf8Len_pos (c : Char) : 0 < utf8Len c := by
  unfold utf8Len
  split
  · omega
  · split
    · omega
    · split <;> omega

theorem byteLen_pos (a : Str) (h : a ≠ []) : 0 < byteLen a := by
  cases a with
  | nil => exact absurd rfl h
  | cons c cs =>
    have := utf8Len_pos c
    simp only [byteLen, List.map_cons, List.sum_cons]
    omega

/-- C6: `levenshtein_similarity(a, b)` is the truncated difference formula
`(maxlen - distance) / maxlen` over `maxlen = max(a.len(), b.len())`, always
lies in `[0, 1]`, returns `0` when both strings are empty, and returns `1` on
`(a, a)` for every non-empty `a`. -/
theorem levenshtein_similarity_def (a b : Str) :
    levenshtein_similarity a b =
      if max (byteLen a) (byteLen b) = 0 then 0
      else ((max (byteLen a) (byteLen b) - levenshtein_distance a b : Nat) : ℚ) /
        ((max (byteLen a) (byteLen b) : Nat) : ℚ) := rfl

theorem levenshtein_similarity_bounds (a b : Str) :
    levenshtein_similarity a b =
        (if max (byteLen a) (byteLen b) = 0 then 0
         else ((max (byteLen a) (byteLen b) - levenshtein_distance a b : Nat) : ℚ) /
           ((max (byteLen a) (byteLen b) : Nat) : ℚ)) ∧
      0 ≤ levenshtein_similarity a b ∧
      levenshtein_similarity a b ≤ 1 ∧
      (a = [] → b = [] → levenshtein_similarity a b = 0) ∧
      (a ≠ [] → levenshtein_similarity a a = 1) := by
  refine ⟨levenshtein_similarity_def a b, ?_, ?_, ?_, ?_⟩
  · rw [levenshtein_similarity_def]
    split
    · exact le_rfl
    · positivity
  · rw [levenshtein_similarity_def]
    split
    · exact zero_le_one
    · rename_i hmax
      rw [div_le_one (by exact_mod_cast Nat.pos_of_ne_zero hmax)]
      exact_mod_cast Nat.sub_le _ _
  · intro ha hb
    subst ha; subst hb
    rfl
  · intro ha
    have hpos : 0 < byteLen a := byteLen_pos a ha
    have hd : levenshtein_distance a a = 0 := by
      rw [levenshtein_distance_eq_levCell]; exact levCell_self_diag a _
    rw [levenshtein_similarity_def, hd]
    simp only [max_self, Nat.sub_zero]
    rw [if_neg (by omega)]
    exact div_self (by exact_mod_cast hpos.ne')

/-- Closed witness for `levenshtein_similarity_bounds`: the hypotheses of its
conditional conjuncts hold at `a = b = "x"`, giving similarity `1`. -/
theorem levenshtein_similarity_bounds_witness :
    (['x'] : Str) ≠ [] ∧ levenshtein_similarity ['x'] ['x'] = 1 :=
  ⟨by decide, (levenshtein_similarity_bounds ['x'] ['x']).2.2.2.2 (by decide)⟩

/-- The chain of similarity combinators built by the `SearchEngine` builder
(src/similarity.rs): the unit base implementation, `StatelessCombination`
(weight, function, inner) and `StatefulCombination` (state type, weight,
function, state constructor, inner).  A stateful scoring function receives
mutable access to its state slot, modelled by returning the new state. -/
inductive Sim (V Q : Type) : Type 1 where
  | base : Sim V Q
  | stateless (weight : ℚ) (func : V → Q → ℚ) (inner : Sim V Q) : Sim V Q
  | stateful (σ : Type) (weight : ℚ) (func : σ → V → Q → ℚ × σ)
      (state_func : V → σ) (inner : Sim V Q) : Sim V Q

namespace Sim

variable {V Q : Type}

/-- The associated `State` type of a combinator chain: `()` for the base,
unchanged for `StatelessCombination`, `(State, Inner::State)` for
`StatefulCombination`. -/
def StateOf : Sim V Q → Type
  | base => Unit
  | stateless _ _ inner => inner.StateOf
  | stateful σ _ _ _ inner => σ × inner.StateOf

/-- `Similarity::state`: build the per-item state for a value. -/
def state : (s : Sim V Q) → V → s.StateOf
  | base, _ => ()
  | stateless _ _ inner, v => inner.state v
  | stateful _ _ _ sf inner, v => (sf v, inner.state v)

/-- `Similarity::similarity`: the base returns `0.0`; each combination layer
computes `function(...) * weight` and takes the `max` with the inner chain's
similarity.  The (possibly mutated) state is returned alongside the score. -/
def similarity : (s : Sim V Q) → s.StateOf → V → Q → ℚ × s.StateOf
  | base, st, _, _ => (0, st)
  | stateless w f inner, st, v, q =>
    let sim := f v q * w
    let r := inner.similarity st v q
    (max sim r.1, r.2)
  | stateful _ w f _ inner, st, v, q =>
    let r0 := f st.1 v q
    let sim := r0.1 * w
    let r := inner.similarity st.2 v q
    (max sim r.1, (r0.2, r.2))

end Sim

/-- Comparator used by the ranking methods: Rust
`v.partial_cmp(s).unwrap_or(Ordering::Equal)` sorts ascending by score;
on `ℚ` the partial comparison is always defined. -/
def scoreLE {V : Type} (x y : V × ℚ) : Prop := x.2 ≤ y.2

instance {V : Type} : DecidableRel (@scoreLE V) :=
  fun x y => inferInstanceAs (Decidable (x.2 ≤ y.2))

instance {V : Type} : IsTotal (V × ℚ) scoreLE := ⟨fun a b => le_total a.2 b.2⟩

instance {V : Type} : IsTrans (V × ℚ) scoreLE := ⟨fun _ _ _ h1 h2 => le_trans h1 h2⟩

/-- Model of `sort_unstable_by` with the ascending score comparator: a sort
producing an output ordered by `scoreLE`.  (Rust leaves the order of
equal-score elements unspecified; only the comparator contract is modelled.) -/
def sortByScore {V : Type} (l : List (V × ℚ)) : List (V × ℚ) :=
  l.insertionSort scoreLE

/-- The `SearchEngine` struct (src/search_engine.rs): the stored
`(state, value)` pairs, indexed by the current combinator chain. -/
structure SearchEngine (V Q : Type) (s : Sim V Q) where
  values : List (s.StateOf × V)

namespace SearchEngine

variable {V Q : Type} {s : Sim V Q}

/-- `SearchEngine::new()`: no values, unit similarity. -/
def new (V Q : Type) : SearchEngine V Q Sim.base := ⟨[]⟩

/-- `SearchEngine::add_value`: push `(state(value), value)`. -/
def add_value (e : SearchEngine V Q s) (v : V) : SearchEngine V Q s :=
  ⟨e.values ++ [(s.state v, v)]⟩

/-- `SearchEngine::with_values`: append all values with their states. -/
def with_values (e : SearchEngine V Q s) (vs : List V) : SearchEngine V Q s :=
  ⟨e.values ++ vs.map fun v => (s.state v, v)⟩

/-- `SearchEngine::with_weight`: wrap the chain in a `StatelessCombination`;
the stored values and their states are kept as they are. -/
def with_weight (e : SearchEngine V Q s) (w : ℚ) (f : V → Q → ℚ) :
    SearchEngine V Q (Sim.stateless w f s) :=
  ⟨e.values⟩

/-- `SearchEngine::with`: `with_weight` at weight `1.0`. -/
def with' (e : SearchEngine V Q s) (f : V → Q → ℚ) :
    SearchEngine V Q (Sim.stateless 1 f s) :=
  e.with_weight 1 f

/-- `SearchEngine::with_state_and_weight`: wrap the chain in a
`StatefulCombination` and rebuild every stored pair as
`(similarity.state(&value), value)` with the new chain. -/
def with_state_and_weight (e : SearchEngine V Q s) (σ : Type) (w : ℚ)
    (state_function : V → σ) (function : σ → V → Q → ℚ × σ) :
    SearchEngine V Q (Sim.stateful σ w function state_function s) :=
  ⟨e.values.map fun p =>
    ((Sim.stateful σ w function state_function s).state p.2, p.2)⟩

/-- `SearchEngine::with_state`: `with_state_and_weight` at weight `1.0`. -/
def with_state (e : SearchEngine V Q s) (σ : Type)
    (state_function : V → σ) (function : σ → V → Q → ℚ × σ) :
    SearchEngine V Q (Sim.stateful σ 1 function state_function s) :=
  e.with_state_and_weight σ 1 state_function function

/-- `SearchEngine::into_similarities`: score every stored pair, then sort by
the ascending comparator. -/
def into_similarities (e : SearchEngine V Q s) (q : Q) : List (V × ℚ) :=
  sortByScore (e.values.map fun p => (p.2, (s.similarity p.1 p.2 q).1))

/-- `SearchEngine::similarities` (the `Mutable` impl): score every stored
pair, updating each stored state in place, and return the sorted scores;
the updated engine is returned alongside. -/
def similarities (e : SearchEngine V Q s) (q : Q) :
    List (V × ℚ) × SearchEngine V Q s :=
  let scored := e.values.map fun p =>
    let r := s.similarity p.1 p.2 q
    ((p.2, r.1), (r.2, p.2))
  (sortByScore (scored.map Prod.fst), ⟨scored.map Prod.snd⟩)

end SearchEngine

/-- C2 counterexample: with two stateless functions that both return `-1`
(weights `1`), the engine scores the item `0`, not
`max(w1*f, w2*g) = -1`: the unit base of the chain contributes a `0.0`
that the claimed formula omits. -/
theorem two_function_negative_counterexample :
    (((((SearchEngine.new Unit Unit).with_weight 1 fun _ _ => -1).with_weight 1
            fun _ _ => -1).add_value ()).into_similarities ()) = [((), 0)] ∧
      max ((1 : ℚ) * -1) ((1 : ℚ) * -1) = -1 := by
  constructor
  · have hmax : max ((-1 : ℚ) * 1) (max ((-1 : ℚ) * 1) 0) = 0 := by
      rw [max_eq_right (by norm_num : ((-1 : ℚ) * 1) ≤ 0),
        max_eq_right (by norm_num : ((-1 : ℚ) * 1) ≤ 0)]
    simp [SearchEngine.into_similarities, SearchEngine.add_value,
      SearchEngine.with_weight, SearchEngine.new, sortByScore,
      List.insertionSort, Sim.similarity, Sim.state, hmax]
  · norm_num

/-- C2 amended: for a `SearchEngine` with exactly two stateless scoring
functions `f` (weight `w1`) and `g` (weight `w2`), the score computed for
every item on every query is `max(w1*f(item,query), w2*g(item,query), 0)`:
the claimed maximum additionally floored at the empty base combination's
score `0.0`. -/
theorem two_function_score_is_weighted_max_with_floor {V Q : Type}
    (w1 w2 : ℚ) (f g : V → Q → ℚ) (v : V) (q : Q) :
    ((((SearchEngine.new V Q).with_weight w1 f).with_weight w2 g).add_value
          v).into_similarities q =
      [(v, max (max (w1 * f v q) (w2 * g v q)) 0)] := by
  simp only [SearchEngine.into_similarities, SearchEngine.add_value,
    SearchEngine.with_weight, SearchEngine.new, sortByScore,
    List.insertionSort, List.orderedInsert, List.map_cons, List.map_nil,
    List.nil_append, Sim.similarity, Sim.state]
  rw [show (f v q * w1) = (w1 * f v q) from mul_comm _ _,
    show (g v q * w2) = (w2 * g v q) from mul_comm _ _]
  rw [max_left_comm (w2 * g v q) (w1 * f v q) 0, ← max_assoc]

/-- Helper shared by the score lemmas: every score a combinator chain
produces is at least the score its inner chain produces, hence at least the
base's `0`. -/
theorem similarity_fst_nonneg {V Q : Type} :
    ∀ (s : Sim V Q) (st : s.StateOf) (v : V) (q : Q),
      0 ≤ (s.similarity st v q).1 := by
  intro s
  induction s with
  | base => intro st v q; exact le_rfl
  | stateless w f inner ih =>
    intro st v q
    exact le_trans (ih st v q) (le_max_right _ _)
  | stateful σ w f sf inner ih =>
    intro st v q
    exact le_trans (ih st.2 v q) (le_max_right _ _)

theorem mem_sortByScore {V : Type} {l : List (V × ℚ)} {p : V × ℚ} :
    p ∈ sortByScore l ↔ p ∈ l :=
  (List.perm_insertionSort scoreLE l).mem_iff

/-- C10: every score an engine built from `SearchEngine::new()` produces is
`≥ 0.0`, whatever scoring functions were chained on (they may all be
negative), because the base combination scores `0.0` and every layer takes a
`max` with its inner chain; an engine with no scoring function configured
assigns every item the score `0.0` exactly. -/
theorem engine_scores_nonneg {V Q : Type} :
    (∀ (s : Sim V Q) (e : SearchEngine V Q s) (q : Q) (p : V × ℚ),
        p ∈ e.into_similarities q → 0 ≤ p.2) ∧
      (∀ (s : Sim V Q) (e : SearchEngine V Q s) (q : Q) (p : V × ℚ),
        p ∈ (e.similarities q).1 → 0 ≤ p.2) ∧
      (∀ (e : SearchEngine V Q Sim.base) (q : Q) (p : V × ℚ),
        p ∈ e.into_similarities q → p.2 = 0) := by
  refine ⟨?_, ?_, ?_⟩
  · intro s e q p hp
    rw [SearchEngine.into_similarities, mem_sortByScore] at hp
    obtain ⟨x, _, rfl⟩ := List.mem_map.1 hp
    exact similarity_fst_nonneg s x.1 x.2 q
  · intro s e q p hp
    rw [SearchEngine.similarities] at hp
    simp only [List.map_map, mem_sortByScore, List.mem_map] at hp
    obtain ⟨x, _, rfl⟩ := hp
    exact similarity_fst_nonneg s x.1 x.2 q
  · intro e q p hp
    rw [SearchEngine.into_similarities, mem_sortByScore] at hp
    obtain ⟨x, _, rfl⟩ := List.mem_map.1 hp
    rfl

/-- Closed witness for `engine_scores_nonneg`: an engine whose only scoring
function always returns `-5` still scores its item `0`. -/
theorem engine_scores_nonneg_witness :
    ((), (0 : ℚ)) ∈
        ((((SearchEngine.new Unit Unit).with_weight 1 fun _ _ => -5).add_value
              ()).into_similarities ()) ∧
      (0 : ℚ) ≤ (((), (0 : ℚ)) : Unit × ℚ).2 := by
  have hmax : max ((-5 : ℚ) * 1) 0 = 0 :=
    max_eq_right (by norm_num : ((-5 : ℚ) * 1) ≤ 0)
  have hmem : ((), (0 : ℚ)) ∈
      ((((SearchEngine.new Unit Unit).with_weight 1 fun _ _ => -5).add_value
            ()).into_similarities ()) := by
    simp [SearchEngine.into_similarities, SearchEngine.add_value,
      SearchEngine.with_weight, SearchEngine.new, sortByScore,
      List.insertionSort, Sim.similarity, Sim.state, hmax]
  exact ⟨hmem, engine_scores_nonneg.1 _ _ _ _ hmem⟩

/-- C4: for every engine and every query, the lists returned by
`into_similarities` and `similarities` are ascending by score: each
element's score is `≤` the score of the element after it. -/
theorem similarities_sorted_ascending {V Q : Type} (s : Sim V Q)
    (e : SearchEngine V Q s) (q : Q) :
    (e.into_similarities q).Chain' (fun x y => x.2 ≤ y.2) ∧
      (e.similarities q).1.Chain' (fun x y => x.2 ≤ y.2) := by
  constructor
  · exact (List.sorted_insertionSort scoreLE _).chain'
  · exact (List.sorted_insertionSort scoreLE _).chain'

/-- C8: adding a stateful scoring function (`with_state` or
`with_state_and_weight`) to an engine that already holds items rebuilds every
stored state: afterwards each stored state is exactly the new composed
chain's state constructor applied to the stored item. -/
theorem with_state_rebuilds_states {V Q : Type} (σ : Type) (s : Sim V Q)
    (e : SearchEngine V Q s) (w : ℚ) (sf : V → σ) (f : σ → V → Q → ℚ × σ) :
    (∀ p ∈ (e.with_state_and_weight σ w sf f).values,
        p.1 = (Sim.stateful σ w f sf s).state p.2) ∧
      (∀ p ∈ (e.with_state σ sf f).values,
        p.1 = (Sim.stateful σ 1 f sf s).state p.2) := by
  constructor
  · intro p hp
    obtain ⟨x, _, rfl⟩ := List.mem_map.1 hp
    rfl
  · intro p hp
    obtain ⟨x, _, rfl⟩ := List.mem_map.1 hp
    rfl

/-- Closed witness for `with_state_rebuilds_states`: after adding a stateful
function with state constructor `fun _ => 3` to an engine that already holds
one item, the stored state is `(3, ())`. -/
theorem with_state_rebuilds_states_witness :
    ((((3 : ℚ), ()), ()) : (ℚ × Unit) × Unit) ∈
        (((SearchEngine.new Unit Unit).add_value ()).with_state_and_weight ℚ 2
            (fun _ => (3 : ℚ)) fun st _ _ => (st, st)).values ∧
      ((((3 : ℚ), ()), ()) : (ℚ × Unit) × Unit).1 = ((3 : ℚ), ()) := by
  have hmem : ((((3 : ℚ), ()), ()) : (ℚ × Unit) × Unit) ∈
      (((SearchEngine.new Unit Unit).add_value ()).with_state_and_weight ℚ 2
          (fun _ => (3 : ℚ)) fun st _ _ => (st, st)).values := by
    simp [SearchEngine.with_state_and_weight, SearchEngine.add_value,
      SearchEngine.new, Sim.state]
  exact ⟨hmem,
    ((with_state_rebuilds_states ℚ Sim.base _ 2 _ _).1 _ hmem).trans rfl⟩

/-- The `EditOperation` enum of src/levenshtein/base.rs. -/
inductive EditOperation where
  | Insert (n : Nat)
  | Delete (n : Nat)
  | Substitute (a b : Nat)
  | None (n : Nat)
deriving DecidableEq

/-- The inner deletion-counting loop of `edit_operations`:
`while i > 0 && matrix[i][j] == matrix[i-1][j] + 1 do del_count += 1; i -= 1`,
returning `(del_count, i)`. -/
def delRun (M : List (List Nat)) (j : Nat) : Nat → Nat → Nat × Nat
  | 0, cnt => (cnt, 0)
  | i + 1, cnt =>
    if mget M (i + 1) j = mget M i j + 1 then delRun M j i (cnt + 1)
    else (cnt, i + 1)

/-- The inner insertion-counting loop of `edit_operations`:
`while j > 0 && matrix[i][j] == matrix[i][j-1] + 1 do ins_count += 1; j -= 1`,
returning `(ins_count, j)`. -/
def insRun (M : List (List Nat)) (i : Nat) : Nat → Nat → Nat × Nat
  | 0, cnt => (cnt, 0)
  | j + 1, cnt =>
    if mget M i (j + 1) = mget M i j + 1 then insRun M i j (cnt + 1)
    else (cnt, j + 1)

/-- The main `while i > 0 && j > 0` loop of `edit_operations` (base.rs lines
120-154), with the locals `current`, `deletion`, `insertion`, `substitution`
inlined.  Each iteration consumes one unit of fuel; the loop strictly
decreases `i + j` per iteration, so fuel `i + j` reproduces the loop exactly.
The branch in which none of the three costs matches `current` (where the Rust
loop would spin forever; unreachable for a matrix obeying the min-recurrence)
merely consumes fuel. -/
def editOpsGo (M : List (List Nat)) (original target : Str) :
    Nat → Nat → Nat → List EditOperation → List EditOperation × Nat × Nat
  | 0, i, j, ops => (ops, i, j)
  | fuel + 1, i, j, ops =>
    if 0 < i ∧ 0 < j then
      if mget M i j =
          mget M (i - 1) (j - 1) +
            (if charsNth original (i - 1) = charsNth target (j - 1) then 0
             else 1) then
        if charsNth original (i - 1) ≠ charsNth target (j - 1) then
          editOpsGo M original target fuel (i - 1) (j - 1)
            (ops ++ [EditOperation.Substitute 1 1])
        else
          editOpsGo M original target fuel (i - 1) (j - 1) ops
      else if mget M i j = mget M (i - 1) j + 1 then
        editOpsGo M original target fuel (delRun M j i 0).2 j
          (ops ++ [EditOperation.Delete (delRun M j i 0).1])
      else if mget M i j = mget M i (j - 1) + 1 then
        editOpsGo M original target fuel i (insRun M i j 0).2
          (ops ++ [EditOperation.Insert (insRun M i j 0).1])
      else editOpsGo M original target fuel i j ops
    else (ops, i, j)

/-- Rust `edit_operations(matrix, original, target)`: run the backtrace loop
from `(original.len(), target.len())`, append the trailing `Delete(i)` and
`Insert(j)` for whatever remains, and reverse into source order. -/
def edit_operations (M : List (List Nat)) (original target : Str) :
    List EditOperation :=
  let r := editOpsGo M original target (byteLen original + byteLen target)
    (byteLen original) (byteLen target) []
  ((if 0 < r.2.1 then r.1 ++ [EditOperation.Delete r.2.1] else r.1) ++
    (if 0 < r.2.2 then [EditOperation.Insert r.2.2] else [])).reverse

/-- Rust `f64::ln_1p`: `ln_1p(x) = ln(1 + x)`, here applied to a cast `usize`. -/
noncomputable def ln_1p (n : Nat) : ℝ := Real.log (1 + n)

/-- The per-operation cost accumulated by the loop of
`weighted_edit_similarity` (base.rs lines 249-259). -/
noncomputable def opCost : EditOperation → ℝ
  | .Insert len => ln_1p len
  | .Delete len => ln_1p len
  | .Substitute la lb => ln_1p la + ln_1p lb
  | .None _ => 0

/-- Rust `weighted_edit_similarity(matrix, a, b)`: backtrace the operations,
accumulate their costs into `distance`, and return
`(max_distance as f64 - distance) / max_distance as f64` (a float
subtraction), or `0.0` when `max_distance == 0`. -/
noncomputable def weighted_edit_similarity (M : List (List Nat)) (a b : Str) :
    ℝ :=
  if max (byteLen a) (byteLen b) = 0 then 0
  else
    ((max (byteLen a) (byteLen b) : ℝ) -
        (edit_operations M a b).foldl (fun d op => d + opCost op) 0) /
      (max (byteLen a) (byteLen b) : ℝ)

/-- Rust `weighted_levenshtein_similarity(a, b)`. -/
noncomputable def weighted_levenshtein_similarity (a b : Str) : ℝ :=
  weighted_edit_similarity (levenshtein_matrix a b) a b

/-- Cost of one backtraced run as the spec words it: `ln(1+L)` for an Insert
or Delete run of length `L`, `2 * ln 2` for every Substitute, `0` for a NoOp
run. -/
noncomputable def specRunCost : EditOperation → ℝ
  | .Insert L => Real.log (1 + L)
  | .Delete L => Real.log (1 + L)
  | .Substitute _ _ => 2 * Real.log 2
  | .None _ => 0

/-- The spec's weighted cost: the sum of the run costs of the backtraced edit
operations. -/
noncomputable def specWeightedCost (a b : Str) : ℝ :=
  ((edit_operations (levenshtein_matrix a b) a b).map specRunCost).sum

/-- Every `Substitute` operation in a list is a `Substitute(1, 1)`. -/
def SubstOnes (ops : List EditOperation) : Prop :=
  ∀ la lb, EditOperation.Substitute la lb ∈ ops → la = 1 ∧ lb = 1

theorem substOnes_nil : SubstOnes [] := by
  intro la lb h
  simp at h

theorem substOnes_append_delete {ops : List EditOperation} {n : Nat}
    (h : SubstOnes ops) : SubstOnes (ops ++ [EditOperation.Delete n]) := by
  intro la lb hm
  rcases List.mem_append.1 hm with hm | hm
  · exact h la lb hm
  · simp at hm

theorem substOnes_append_insert {ops : List EditOperation} {n : Nat}
    (h : SubstOnes ops) : SubstOnes (ops ++ [EditOperation.Insert n]) := by
  intro la lb hm
  rcases List.mem_append.1 hm with hm | hm
  · exact h la lb hm
  · simp at hm

theorem substOnes_append_subst {ops : List EditOperation}
    (h : SubstOnes ops) : SubstOnes (ops ++ [EditOperation.Substitute 1 1]) := by
  intro la lb hm
  rcases List.mem_append.1 hm with hm | hm
  · exact h la lb hm
  · simp only [List.mem_singleton] at hm
    injection hm with h1 h2
    exact ⟨h1, h2⟩

theorem editOpsGo_substOnes (M : List (List Nat)) (original target : Str) :
    ∀ (fuel i j : Nat) (acc : List EditOperation), SubstOnes acc →
      SubstOnes (editOpsGo M original target fuel i j acc).1 := by
  intro fuel
  induction fuel with
  | zero => intro i j acc h; exact h
  | succ fuel ih =>
    intro i j acc h
    rw [editOpsGo]
    repeat' split
    all_goals
      first
        | exact ih _ _ _ (substOnes_append_subst h)
        | exact ih _ _ _ (substOnes_append_delete h)
        | exact ih _ _ _ (substOnes_append_insert h)
        | exact ih _ _ _ h
        | exact h

theorem edit_operations_substOnes (M : List (List Nat)) (original target : Str) :
    SubstOnes (edit_operations M original target) := by
  unfold edit_operations
  intro la lb hm
  rw [List.mem_reverse] at hm
  rcases List.mem_append.1 hm with hm | hm
  · have base := editOpsGo_substOnes M original target
      (byteLen original + byteLen target) (byteLen original) (byteLen target)
      [] substOnes_nil
    revert hm
    split
    · intro hm
      exact substOnes_append_delete base la lb hm
    · intro hm
      exact base la lb hm
  · revert hm
    split
    · intro hm
      simp at hm
    · intro hm
      simp at hm

theorem foldl_opCost_eq_sum :
    ∀ (ops : List EditOperation) (d : ℝ),
      ops.foldl (fun d op => d + opCost op) d = d + (ops.map opCost).sum := by
  intro ops
  induction ops with
  | nil => intro d; simp
  | cons op ops ih =>
    intro d
    simp only [List.foldl_cons, List.map_cons, List.sum_cons, ih]
    ring

theorem opCost_eq_specRunCost {op : EditOperation}
    (h : ∀ la lb, op = EditOperation.Substitute la lb → la = 1 ∧ lb = 1) :
    opCost op = specRunCost op := by
  cases op with
  | Insert n => rfl
  | Delete n => rfl
  | None n => rfl
  | Substitute la lb =>
    obtain ⟨h1, h2⟩ := h la lb rfl
    subst h1; subst h2
    show ln_1p 1 + ln_1p 1 = 2 * Real.log 2
    have : ln_1p 1 = Real.log 2 := by
      unfold ln_1p
      norm_num
    rw [this, two_mul]

/-- C5: `weighted_levenshtein_similarity(a, b)` equals
`(maxlen - weighted_cost) / maxlen` with `maxlen = max(a.len(), b.len())`,
where `weighted_cost` sums, over the backtraced edit operations,
`ln(1+L)` per Insert run of length `L`, `ln(1+L)` per Delete run of length
`L`, `2·ln 2` per Substitute, and `0` per NoOp run; both strings empty gives
`0.0`. -/
theorem weighted_similarity_matches_spec_cost (a b : Str) :
    weighted_levenshtein_similarity a b =
      if max (byteLen a) (byteLen b) = 0 then 0
      else ((max (byteLen a) (byteLen b) : ℝ) - specWeightedCost a b) /
        (max (byteLen a) (byteLen b) : ℝ) := by
  unfold weighted_levenshtein_similarity weighted_edit_similarity
    specWeightedCost
  rw [foldl_opCost_eq_sum, zero_add]
  have hmap : (edit_operations (levenshtein_matrix a b) a b).map opCost =
      (edit_operations (levenshtein_matrix a b) a b).map specRunCost := by
    apply List.map_congr_left
    intro op hop
    apply opCost_eq_specRunCost
    intro la lb hsub
    subst hsub
    exact edit_operations_substOnes (levenshtein_matrix a b) a b la lb hop
  rw [hmap]

end SimpleSearch
